import Mathlib

/-!
Verification of the EnableBanking provider adapter
(`apps/engine/src/routes/accounts/index.ts`) of the midday repository.

The TypeScript source is shallowly embedded: network effects are modelled
denotationally by a per-item behaviour (settle time in milliseconds plus the
settled result), `Promise.race` against a `setTimeout` is modelled as a
comparison of the settle time with the deadline, `Promise.allSettled` over a
batch is a `List.map` producing tagged settled results, and the sequential
batch loop is a fold.  Monetary amounts (parsed from decimal strings with
`Number.parseFloat` in the source) are modelled as rationals.
-/

namespace Midday

/-! ## Balances (`EnableBankingApi.getAccountBalance`) -/

/-- The `balance_amount` object of one entry of a provider balances response. -/
structure BalanceAmount where
  amount : ℚ
  currency : String
deriving DecidableEq, Repr

/-- One entry of `GetBalancesResponse.balances`. -/
structure BalanceEntry where
  name : String
  balance_amount : BalanceAmount
deriving DecidableEq, Repr

/-- Embeds the selection performed by `EnableBankingApi.getAccountBalance` on a
provider balances response: `response.balances.reduce((max, current) =>
currentAmount > maxAmount ? current : max, response.balances[0])`.  A JS
`reduce` with an initial value folds over every element of the array; with an
empty array and initial value `balances[0] = undefined` it returns `undefined`
without invoking the callback, which the embedding renders as `none`. -/
def getAccountBalance (balances : List BalanceEntry) : Option BalanceEntry :=
  match balances with
  | [] => none
  | b0 :: _ =>
      some (balances.foldl
        (fun mx current =>
          if mx.balance_amount.amount < current.balance_amount.amount then current else mx)
        b0)

/-! ## Multi-account orchestrator (`EnableBankingApi.getAccounts`) -/

/-- Per-account timeout of the orchestrator: `ACCOUNT_TIMEOUT = 8000` ms. -/
def ACCOUNT_TIMEOUT : Nat := 8000

/-- Concurrency cap of the orchestrator: `MAX_CONCURRENT = 2`. -/
def MAX_CONCURRENT : Nat := 2

/-- Account details returned by `getAccountDetails` (fields irrelevant to the
orchestrator are kept minimal). -/
structure AccountDetails where
  uid : String
  name : String
deriving DecidableEq, Repr

/-- The merged record `{...details, institution, valid_until, balance}` built
for each successfully processed account (the spread of the details object is
modelled as a nested field). -/
structure AccountRecord where
  details : AccountDetails
  institution : String
  valid_until : String
  balance : Option BalanceEntry
deriving DecidableEq, Repr

/-- A JS `PromiseSettledResult`: `fulfilled` with a value or `rejected` with a
reason. -/
inductive SettledResult (α : Type) where
  | fulfilled (value : α)
  | rejected (reason : String)
deriving DecidableEq, Repr

/-- Boolean test for a rejected settled result. -/
def SettledResult.isFailure : SettledResult α → Bool
  | .fulfilled _ => false
  | .rejected _ => true

/-- The `value` field of a settled result, present exactly on fulfilment. -/
def SettledResult.value? : SettledResult α → Option α
  | .fulfilled v => some v
  | .rejected _ => none

/-- Denotation of the asynchronous work done for one account id: the time in
milliseconds at which the `Promise.all` of the detail call and the balance
call settles, and what it settles to (the detail response paired with the
selected balance, or a rejection reason). -/
structure ItemBehavior where
  time : Nat
  result : SettledResult (AccountDetails × Option BalanceEntry)

/-- The session object returned by `getSession(id)`, restricted to the fields
the orchestrator reads: the account id list, the institution (`aspsp`) and the
access validity bound (`access.valid_until`). -/
structure SessionData where
  accounts : List String
  aspsp : String
  validUntil : String

/-- Embeds the body of one item of `processAccountBatch`: the account's work
(`accountPromise`) races a `setTimeout` rejection of
`ACCOUNT_TIMEOUT` ms tagged with the account id.  The work wins the race iff
it settles strictly before the timer fires; a fulfilled pair is merged with
the session's institution and validity window into an `AccountRecord`. -/
def settleItem (session : SessionData) (behavior : String → ItemBehavior)
    (accountId : String) : SettledResult AccountRecord :=
  let b := behavior accountId
  if b.time < ACCOUNT_TIMEOUT then
    match b.result with
    | .fulfilled (details, balance) =>
        .fulfilled
          { details := details
            institution := session.aspsp
            valid_until := session.validUntil
            balance := balance }
    | .rejected reason => .rejected reason
  else
    .rejected ("Timeout processing account " ++ accountId)

/-- Embeds `processAccountBatch`: `Promise.allSettled` over the batch, one
independent settled result per account id. -/
def processAccountBatch (session : SessionData) (behavior : String → ItemBehavior)
    (accountIds : List String) : List (SettledResult AccountRecord) :=
  accountIds.map (settleItem session behavior)

/-- Embeds the batching loop `for (let i = 0; i < accounts.length; i +=
MAX_CONCURRENT) push(accounts.slice(i, i + MAX_CONCURRENT))`, specialised to
`MAX_CONCURRENT = 2`. -/
def accountBatches : List String → List (List String)
  | [] => []
  | [a] => [[a]]
  | a :: b :: rest => [a, b] :: accountBatches rest

/-- Embeds the sequential batch loop of `getAccounts`: each batch is fully
settled and its results appended to `allResults` before the next batch is
dispatched. -/
def collectResults (session : SessionData) (behavior : String → ItemBehavior) :
    List (SettledResult AccountRecord) :=
  (accountBatches session.accounts).foldl
    (fun allResults batch => allResults ++ processAccountBatch session behavior batch) []

/-- Embeds the success side of the `allResults.forEach` partition of
`getAccounts`. -/
def successfulAccounts (session : SessionData) (behavior : String → ItemBehavior) :
    List AccountRecord :=
  (collectResults session behavior).filterMap SettledResult.value?

/-- Embeds the failure side of the `allResults.forEach` partition: iteration
with the running index, pushing `session.accounts[index]` for each rejected
result (`getD` with a default mirrors the partial JS index access; the index
is always in range because `allResults` has one entry per account). -/
def failedAccountsAux (accounts : List String) :
    Nat → List (SettledResult AccountRecord) → List String
  | _, [] => []
  | i, .fulfilled _ :: rs => failedAccountsAux accounts (i + 1) rs
  | i, .rejected _ :: rs => accounts.getD i "" :: failedAccountsAux accounts (i + 1) rs

/-- The failed account ids reported (via `console.warn`) by `getAccounts`. -/
def failedAccounts (session : SessionData) (behavior : String → ItemBehavior) :
    List String :=
  failedAccountsAux session.accounts 0 (collectResults session behavior)

/-- Embeds `EnableBankingApi.getAccounts` for session id `id` once the session
object has been retrieved: throwing is modelled with `Except.error`.  The
source throws `All accounts failed to process for session ${id}` exactly when
`successfulAccounts.length === 0`, and otherwise returns the successful
accounts. -/
def getAccounts (id : String) (session : SessionData)
    (behavior : String → ItemBehavior) : Except String (List AccountRecord) :=
  if (successfulAccounts session behavior).length = 0 then
    .error ("All accounts failed to process for session " ++ id)
  else
    .ok (successfulAccounts session behavior)

/-! ## Transactions request (`EnableBankingApi.getTransactions`) -/

/-- A query-parameter value of the outbound transactions request: a literal
string, or a calendar date identified by its epoch-day number (the source
formats the date with `formatISO(date, representation: "date")`, which is
injective on calendar days, so a day number is a faithful stand-in). -/
inductive ParamValue where
  | str (s : String)
  | date (epochDay : Int)
deriving DecidableEq, Repr

/-- Embeds the query parameters built by `EnableBankingApi.getTransactions`
for `GET /accounts/:id/transactions`: `strategy` is `"default"` when the
caller-supplied `latest` flag is set and `"longest"` otherwise,
`transaction_status` is always `"BOOK"`, and the conditional object spread
adds `date_from = formatISO(subDays(new Date(), 5))` — today minus five
days — exactly when `latest` is set.  `today` is the current date as an
epoch-day number. -/
def getTransactionsParams (today : Int) (latest : Bool) :
    List (String × ParamValue) :=
  [("strategy", .str (if latest then "default" else "longest")),
   ("transaction_status", .str "BOOK")] ++
  (if latest then [("date_from", .date (today - 5))] else [])

/-! ## `GET /accounts` route handler -/

/-- Request-level deadline of the `GET /accounts` handler:
`TOTAL_TIMEOUT = 28000` ms (2 s under the 30 s worker execution ceiling). -/
def TOTAL_TIMEOUT : Nat := 28000

/-- The engine error taxonomy as observable at the handler: an adapter error
carrying an upstream code when present, or a local timeout. -/
inductive EngineError where
  | providerError (code : String) (message : String)
  | timeoutError (message : String)
deriving DecidableEq, Repr

/-- The `code`/`message` pair of a normalized error. -/
structure ErrorBody where
  code : String
  message : String
deriving DecidableEq, Repr

/-- The uniform `error: (code, message)` response body. -/
structure ErrorResponse where
  error : ErrorBody
deriving DecidableEq, Repr

/-- Modelled from the spec: `createErrorResponse` lives in
`@engine/utils/error`, which is not under src/; per §4.5 of the spec every
taxonomy member is mapped to the uniform structured body with a `code` and a
`message`, the provider error keeping its upstream code string. -/
def createErrorResponse : EngineError → ErrorResponse
  | .providerError code message => ⟨⟨code, message⟩⟩
  | .timeoutError message => ⟨⟨"TIMEOUT", message⟩⟩

/-- The two response shapes of the `GET /accounts` route: HTTP 200 with a
`data` body or HTTP 400 with a normalized error body. -/
inductive AccountsHttpResponse where
  | ok200 (data : List AccountRecord)
  | err400 (body : ErrorResponse)
deriving DecidableEq, Repr

/-- Denotation of the whole multi-account fetch as seen by the handler: when
it settles and what it settles to. -/
structure FetchBehavior where
  time : Nat
  result : Except EngineError (List AccountRecord)

/-- Embeds `Promise.race([accountsPromise, timeoutPromise])` of the handler:
the fetch wins the race iff it settles strictly before the 28 s timer fires;
otherwise the race rejects with the `Request timeout` error. -/
def accountsRequestRace (b : FetchBehavior) :
    Except EngineError (List AccountRecord) :=
  if b.time < TOTAL_TIMEOUT then b.result
  else .error (.timeoutError "Request timeout")

/-- Embeds the `GET /accounts` handler body: a fetch that wins the race and
succeeds returns 200 with the data; any error — adapter failure or the
request-level deadline — is caught and returned as 400 with the normalized
error body. -/
def getAccountsHandler (b : FetchBehavior) : AccountsHttpResponse :=
  match accountsRequestRace b with
  | .ok data => .ok200 data
  | .error e => .err400 (createErrorResponse e)

/-! ## Signed-token assertion (`EnableBankingApi.#generateJWT`)

The source builds `header.body.signature` where header and body are
`jose.base64url.encode(Buffer.from(JSON.stringify(data)))` — URL-safe,
unpadded base64 over the UTF-8 bytes of the JSON text — and the signature is
the base64url encoding of the RSA signature bytes.  Bytes are modelled as
naturals below 256; the asymmetric signature itself is an opaque byte list
parameter of the embedding. -/

/-- The configured token TTL: `#expiresIn = 20` hours.  The source comment
states the provider maximum allowed TTL is 24 hours (86400 seconds). -/
def expiresInHours : Nat := 20

/-- The URL-safe base64 alphabet (RFC 4648 §5); it contains neither the `.`
separator nor the `=` padding character. -/
def b64Alphabet : List Char :=
  ['A', 'B', 'C', 'D', 'E', 'F', 'G', 'H', 'I', 'J', 'K', 'L', 'M',
   'N', 'O', 'P', 'Q', 'R', 'S', 'T', 'U', 'V', 'W', 'X', 'Y', 'Z',
   'a', 'b', 'c', 'd', 'e', 'f', 'g', 'h', 'i', 'j', 'k', 'l', 'm',
   'n', 'o', 'p', 'q', 'r', 's', 't', 'u', 'v', 'w', 'x', 'y', 'z',
   '0', '1', '2', '3', '4', '5', '6', '7', '8', '9', '-', '_']

/-- The alphabet character of a sextet. -/
def b64Char (n : Nat) : Char := b64Alphabet.getD n '?'

/-- The sextet of an alphabet character. -/
def b64Index (c : Char) : Option Nat := b64Alphabet.indexOf? c

/-- URL-safe unpadded base64 encoding of a byte list, three bytes to four
characters, with the standard two- and three-character final groups and no
`=` padding. -/
def b64EncodeBytes : List Nat → List Char
  | [] => []
  | [a] => [b64Char (a / 4), b64Char (a % 4 * 16)]
  | [a, b] =>
      [b64Char (a / 4), b64Char (a % 4 * 16 + b / 16), b64Char (b % 16 * 4)]
  | a :: b :: c :: rest =>
      b64Char (a / 4) :: b64Char (a % 4 * 16 + b / 16) ::
        b64Char (b % 16 * 4 + c / 64) :: b64Char (c % 64) :: b64EncodeBytes rest

/-- URL-safe unpadded base64 decoding, the inverse of `b64EncodeBytes`. -/
def b64DecodeChars : List Char → Option (List Nat)
  | [] => some []
  | [_] => none
  | [x, y] =>
      match b64Index x, b64Index y with
      | some i, some j => some [i * 4 + j / 16]
      | _, _ => none
  | [x, y, z] =>
      match b64Index x, b64Index y, b64Index z with
      | some i, some j, some k => some [i * 4 + j / 16, j % 16 * 16 + k / 4]
      | _, _, _ => none
  | x :: y :: z :: w :: rest =>
      match b64Index x, b64Index y, b64Index z, b64Index w, b64DecodeChars rest with
      | some i, some j, some k, some l, some tail =>
          some ((i * 4 + j / 16) :: (j % 16 * 16 + k / 4) :: (k % 4 * 64 + l) :: tail)
      | _, _, _, _, _ => none

/-- The byte list of an ASCII string (UTF-8 agrees with the code points on
the strings encoded here). -/
def stringToBytes (s : String) : List Nat := s.toList.map Char.toNat

/-- The string of a byte list. -/
def bytesToString (bs : List Nat) : String := String.mk (bs.map Char.ofNat)

/-- Embeds `jose.base64url.encode(Buffer.from(s))`. -/
def base64urlEncode (s : String) : String :=
  String.mk (b64EncodeBytes (stringToBytes s))

/-- Decoding a base64url segment back to its text. -/
def base64urlDecode (s : String) : Option String :=
  (b64DecodeChars s.toList).map bytesToString

/-- Decimal digits of a positive natural, least significant first. -/
def natDigitsRev : Nat → List Nat
  | 0 => []
  | n + 1 => (n + 1) % 10 :: natDigitsRev ((n + 1) / 10)
decreasing_by exact Nat.div_lt_self (Nat.succ_pos n) (by norm_num)

/-- The character of a decimal digit. -/
def digitChar (d : Nat) : Char := Char.ofNat (48 + d)

/-- The decimal representation of a natural, as `JSON.stringify` prints
numbers. -/
def natChars (n : Nat) : List Char :=
  if n = 0 then ['0'] else (natDigitsRev n).reverse.map digitChar

/-- String form of `natChars`. -/
def natToStr (n : Nat) : String := String.mk (natChars n)

/-- The JSON text `JSON.stringify` produces for the object built by
`#getJWTHeader`: keys in insertion order `typ`, `alg`, `kid`. -/
def jwtHeaderJson (kid : String) : String :=
  "\x7b\"typ\":\"JWT\",\"alg\":\"RS256\",\"kid\":\"" ++ kid ++ "\"\x7d"

/-- The JSON text `JSON.stringify` produces for the object built by
`#getJWTBody`: keys in insertion order `iss`, `aud`, `iat`, `exp`, with
`iss = "enablebanking.com"`, `aud = "api.enablebanking.com"`, `iat` the
current Unix timestamp and `exp = iat + exp` for the TTL argument. -/
def jwtBodyJson (iat exp : Nat) : String :=
  "\x7b\"iss\":\"enablebanking.com\",\"aud\":\"api.enablebanking.com\",\"iat\":" ++
    natToStr iat ++ ",\"exp\":" ++ natToStr exp ++ "\x7d"

/-- Embeds `#encodeData`. -/
def encodeData (s : String) : String := base64urlEncode s

/-- Embeds `#getJWTHeader` for application id `kid`. -/
def getJWTHeader (applicationId : String) : String :=
  encodeData (jwtHeaderJson applicationId)

/-- Embeds `#getJWTBody exp` at current timestamp `timestamp`. -/
def getJWTBody (timestamp exp : Nat) : String :=
  encodeData (jwtBodyJson timestamp (timestamp + exp))

/-- Embeds `#generateJWT`: TTL in seconds is `#expiresIn * 60 * 60`, and the
assertion is the three dot-joined segments; the RSA signature bytes are an
opaque parameter. -/
def generateJWT (applicationId : String) (timestamp : Nat)
    (signature : List Nat) : String :=
  getJWTHeader applicationId ++ "." ++
    getJWTBody timestamp (expiresInHours * 60 * 60) ++ "." ++
    String.mk (b64EncodeBytes signature)

/-- The decoded fields of a signed-token assertion body. -/
structure JWTBody where
  iss : String
  aud : String
  iat : Nat
  exp : Nat
deriving DecidableEq, Repr

/-- Consumes an exact expected character sequence, returning the remainder. -/
def expectChars : List Char → List Char → Option (List Char)
  | [], rest => some rest
  | _ :: _, [] => none
  | p :: ps, c :: cs => if c = p then expectChars ps cs else none

/-- Consumes up to and including the next `"` quote, returning the consumed
text and the remainder. -/
def takeUntilQuote : List Char → Option (List Char × List Char)
  | [] => none
  | c :: cs =>
      if c = '"' then some ([], cs)
      else
        match takeUntilQuote cs with
        | some (s, rest) => some (c :: s, rest)
        | none => none

/-- Greedily consumes decimal digit characters, returning their values and
the remainder. -/
def readDigits : List Char → List Nat × List Char
  | [] => ([], [])
  | c :: cs =>
      if 48 ≤ c.toNat ∧ c.toNat ≤ 57 then
        match readDigits cs with
        | (ds, rest) => ((c.toNat - 48) :: ds, rest)
      else ([], c :: cs)

/-- Holds when a character list does not start with a decimal digit, so a
greedy digit read stops exactly at its head. -/
def noLeadingDigit : List Char → Bool
  | [] => true
  | c :: _ => !(48 ≤ c.toNat && c.toNat ≤ 57)

/-- Parses a decimal natural (at least one digit), returning its value and
the remainder. -/
def readNat (cs : List Char) : Option (Nat × List Char) :=
  match readDigits cs with
  | ([], _) => none
  | (ds, rest) => some (ds.foldl (fun a d => a * 10 + d) 0, rest)

/-- Parses the JSON text of a signed-token body of the exact shape emitted by
`jwtBodyJson`, recovering issuer, audience, issued-at and expiry. -/
def parseJWTBody (s : String) : Option JWTBody :=
  (expectChars "\x7b\"iss\":\"".toList s.toList).bind fun r1 =>
  (takeUntilQuote r1).bind fun p2 =>
  (expectChars ",\"aud\":\"".toList p2.2).bind fun p4r =>
  (takeUntilQuote p4r).bind fun p4 =>
  (expectChars ",\"iat\":".toList p4.2).bind fun r5 =>
  (readNat r5).bind fun p6 =>
  (expectChars ",\"exp\":".toList p6.2).bind fun r7 =>
  (readNat r7).bind fun p8 =>
  if p8.2 = ['\x7d'] then
    some ⟨String.mk p2.1, String.mk p4.1, p6.1, p8.1⟩
  else none

/-! ## Theorems -/

/-- Helper: the fold of `getAccountBalance` returns its accumulator or a list element. -/
theorem foldHighest_mem (l : List BalanceEntry) : ∀ acc : BalanceEntry,
    (l.foldl
      (fun mx current =>
        if mx.balance_amount.amount < current.balance_amount.amount then current else mx)
      acc) = acc ∨
    (l.foldl
      (fun mx current =>
        if mx.balance_amount.amount < current.balance_amount.amount then current else mx)
      acc) ∈ l := by
  induction l with
  | nil => intro acc; left; rfl
  | cons x xs ih =>
      intro acc
      simp only [List.foldl_cons]
      rcases ih (if acc.balance_amount.amount < x.balance_amount.amount then x else acc) with
        h | h
      · rw [h]
        by_cases hc : acc.balance_amount.amount < x.balance_amount.amount
        · right; simp [hc]
        · left; simp [hc]
      · right; exact List.mem_cons_of_mem _ h

/-- Helper: the fold of `getAccountBalance` dominates its accumulator and every
element of the list. -/
theorem foldHighest_ge (l : List BalanceEntry) : ∀ acc : BalanceEntry,
    acc.balance_amount.amount ≤
      (l.foldl
        (fun mx current =>
          if mx.balance_amount.amount < current.balance_amount.amount then current else mx)
        acc).balance_amount.amount ∧
    ∀ x ∈ l, x.balance_amount.amount ≤
      (l.foldl
        (fun mx current =>
          if mx.balance_amount.amount < current.balance_amount.amount then current else mx)
        acc).balance_amount.amount := by
  induction l with
  | nil =>
      intro acc
      exact ⟨le_refl _, by intro x hx; cases hx⟩
  | cons y ys ih =>
      intro acc
      simp only [List.foldl_cons]
      obtain ⟨hacc, hall⟩ :=
        ih (if acc.balance_amount.amount < y.balance_amount.amount then y else acc)
      constructor
      · refine le_trans ?_ hacc
        by_cases hc : acc.balance_amount.amount < y.balance_amount.amount
        · simp [hc]; exact le_of_lt hc
        · simp [hc]
      · intro x hx
        rcases List.mem_cons.mp hx with rfl | hx
        · refine le_trans ?_ hacc
          by_cases hc : acc.balance_amount.amount < x.balance_amount.amount
          · simp [hc]
          · simp [hc]; exact le_of_not_lt hc
        · exact hall x hx

/-- C3: for every provider balance response with at least one entry,
`getAccountBalance` returns an entry of that list whose amount is numerically
greater than or equal to the amount of every other entry (highest-balance
selection). -/
theorem c3_getAccountBalance_highest (balances : List BalanceEntry)
    (hne : balances ≠ []) :
    ∃ b, getAccountBalance balances = some b ∧ b ∈ balances ∧
      ∀ x ∈ balances, x.balance_amount.amount ≤ b.balance_amount.amount := by
  cases balances with
  | nil => exact absurd rfl hne
  | cons b0 rest =>
      refine ⟨_, rfl, ?_, ?_⟩
      · rcases foldHighest_mem (b0 :: rest) b0 with h | h
        · rw [h]; exact List.mem_cons_self _ _
        · exact h
      · exact (foldHighest_ge (b0 :: rest) b0).2

/-- A concrete two-entry balance list used as the C3 witness input. -/
def sampleBalances : List BalanceEntry :=
  [⟨"available", ⟨3/2, "EUR"⟩⟩, ⟨"booked", ⟨5/2, "EUR"⟩⟩]

/-- Witness for C3 at a concrete two-entry balance list. -/
theorem c3_witness :
    ∃ b, getAccountBalance sampleBalances = some b ∧ b ∈ sampleBalances ∧
      ∀ x ∈ sampleBalances,
        x.balance_amount.amount ≤ b.balance_amount.amount :=
  c3_getAccountBalance_highest sampleBalances (by decide)

/-- Helper: the concatenation of the batches is the original account list. -/
theorem accountBatches_flatten : ∀ xs : List String, (accountBatches xs).flatten = xs
  | [] => rfl
  | [a] => rfl
  | a :: b :: rest => by
      simp [accountBatches, accountBatches_flatten rest]

/-- Helper: every batch has size at most 2, and every batch except possibly
the last has size exactly 2. -/
theorem accountBatches_sizes : ∀ xs : List String,
    (∀ batch ∈ accountBatches xs, batch.length ≤ 2) ∧
    (∀ batch ∈ (accountBatches xs).dropLast, batch.length = 2)
  | [] => by simp [accountBatches]
  | [a] => by simp [accountBatches]
  | a :: b :: rest => by
      obtain ⟨h1, h2⟩ := accountBatches_sizes rest
      constructor
      · intro batch hb
        rw [accountBatches] at hb
        rcases List.mem_cons.mp hb with rfl | hb
        · rfl
        · exact h1 batch hb
      · intro batch hb
        rw [accountBatches] at hb
        cases hr : accountBatches rest with
        | nil => rw [hr] at hb; simp at hb
        | cons c cs =>
            rw [hr] at hb
            simp only [List.dropLast] at hb
            rcases List.mem_cons.mp hb with rfl | hb
            · rfl
            · exact h2 batch (by rw [hr]; exact hb)

/-- Helper: folding batch results with append equals the flattened map. -/
theorem foldl_append_map (f : List String → List (SettledResult AccountRecord)) :
    ∀ (bs : List (List String)) (acc : List (SettledResult AccountRecord)),
      bs.foldl (fun allResults batch => allResults ++ f batch) acc =
        acc ++ (bs.map f).flatten
  | [], acc => by simp
  | batch :: bs, acc => by
      simp [List.foldl_cons, foldl_append_map f bs]

/-- Helper: the sequential batch loop produces one settled result per account
id, in the order of the session's account list. -/
theorem collectResults_eq_map (session : SessionData) (behavior : String → ItemBehavior) :
    collectResults session behavior =
      session.accounts.map (settleItem session behavior) := by
  rw [collectResults, foldl_append_map, List.nil_append]
  have hpb : List.map (processAccountBatch session behavior)
        (accountBatches session.accounts) =
      List.map (List.map (settleItem session behavior))
        (accountBatches session.accounts) := rfl
  rw [hpb, ← List.map_flatten, accountBatches_flatten]

/-- Helper: reading the indexed `forEach` accumulation of failed ids off a
drop decomposition. -/
theorem drop_eq_cons_getD : ∀ (full : List String) (k : Nat) (y : String) (ys : List String),
    full.drop k = y :: ys → full.getD k "" = y ∧ full.drop (k + 1) = ys
  | [], k, y, ys => by simp
  | x :: xs, 0, y, ys => by
      intro h
      simp only [List.drop_zero] at h
      cases h
      exact ⟨rfl, by simp⟩
  | x :: xs, k + 1, y, ys => by
      intro h
      simp only [List.drop_succ_cons] at h
      obtain ⟨h1, h2⟩ := drop_eq_cons_getD xs k y ys h
      refine ⟨h1, ?_⟩
      simpa using h2

/-- Helper: the indexed failed-id accumulation over the mapped results filters
the account list by failure of each account's own settled result. -/
theorem failedAccountsAux_eq_filter (f : String → SettledResult AccountRecord) :
    ∀ (ys full : List String) (k : Nat), full.drop k = ys →
      failedAccountsAux full k (ys.map f) =
        ys.filter (fun a => (f a).isFailure)
  | [], full, k, _ => by simp [failedAccountsAux]
  | y :: ys, full, k, hdrop => by
      obtain ⟨hget, hdrop1⟩ := drop_eq_cons_getD full k y ys hdrop
      have ih := failedAccountsAux_eq_filter f ys full (k + 1) hdrop1
      cases hy : f y with
      | fulfilled v =>
          simp only [List.map_cons, hy, failedAccountsAux, ih]
          simp [List.filter_cons, SettledResult.isFailure, hy]
      | rejected r =>
          simp only [List.map_cons, hy, failedAccountsAux, ih, hget]
          simp [List.filter_cons, SettledResult.isFailure, hy]

/-- Helper: the reported failed ids are exactly the accounts whose own settled
result is a failure. -/
theorem failedAccounts_eq_filter (session : SessionData) (behavior : String → ItemBehavior) :
    failedAccounts session behavior =
      session.accounts.filter
        (fun a => (settleItem session behavior a).isFailure) := by
  rw [failedAccounts, collectResults_eq_map]
  exact failedAccountsAux_eq_filter _ session.accounts session.accounts 0 (by simp)

/-- Helper: successes and failures partition the account list. -/
theorem success_fail_length (f : String → SettledResult AccountRecord) :
    ∀ xs : List String,
      ((xs.map f).filterMap SettledResult.value?).length +
        (xs.filter (fun a => (f a).isFailure)).length = xs.length
  | [] => rfl
  | x :: xs => by
      have ih := success_fail_length f xs
      cases hx : f x with
      | fulfilled v =>
          have h1 : SettledResult.value? (f x) = some v := by rw [hx]; rfl
          have h2 : ¬((fun a => (f a).isFailure) x = true) := by
            show ¬((f x).isFailure = true)
            rw [hx]; simp [SettledResult.isFailure]
          rw [List.map_cons, List.filterMap_cons_some h1,
            @List.filter_cons_of_neg String (fun a => (f a).isFailure) x xs h2,
            List.length_cons, List.length_cons]
          omega
      | rejected r =>
          have h1 : SettledResult.value? (f x) = none := by rw [hx]; rfl
          have h2 : (fun a => (f a).isFailure) x = true := by
            show (f x).isFailure = true
            rw [hx]; rfl
          rw [List.map_cons, List.filterMap_cons_none h1,
            @List.filter_cons_of_pos String (fun a => (f a).isFailure) x xs h2,
            List.length_cons, List.length_cons]
          omega

/-- Helper: the successes of `getAccounts` have one entry per non-failing
account. -/
theorem successfulAccounts_length (session : SessionData) (behavior : String → ItemBehavior) :
    (successfulAccounts session behavior).length +
        (session.accounts.filter
          (fun a => (settleItem session behavior a).isFailure)).length =
      session.accounts.length := by
  rw [successfulAccounts, collectResults_eq_map]
  exact success_fail_length _ session.accounts

/-- C1: when a strict subset of the N accounts fail their detail-or-balance
work, `getAccounts` does not throw: it returns exactly the N − |S| successful
records and reports precisely the |S| failed account ids. -/
theorem c1_getAccounts_partial_failure (id : String) (session : SessionData)
    (behavior : String → ItemBehavior)
    (hlt : (session.accounts.filter
        (fun a => (settleItem session behavior a).isFailure)).length <
      session.accounts.length) :
    getAccounts id session behavior = .ok (successfulAccounts session behavior) ∧
    (successfulAccounts session behavior).length =
      session.accounts.length - (failedAccounts session behavior).length ∧
    failedAccounts session behavior =
      session.accounts.filter
        (fun a => (settleItem session behavior a).isFailure) := by
  have hpart := successfulAccounts_length session behavior
  have hfail := failedAccounts_eq_filter session behavior
  have hpos : (successfulAccounts session behavior).length ≠ 0 := by omega
  refine ⟨?_, ?_, hfail⟩
  · rw [getAccounts, if_neg hpos]
  · rw [hfail]; omega

/-- A concrete session for the C1 witness: two accounts, the second forced to
fail. -/
def sampleSession : SessionData :=
  { accounts := ["acc-1", "acc-2"], aspsp := "Sample Bank", validUntil := "2026-01-01" }

/-- The C1 witness behaviour: the first account settles quickly and
successfully, the second rejects. -/
def sampleBehavior : String → ItemBehavior := fun accountId =>
  if accountId = "acc-1" then
    { time := 100, result := .fulfilled (⟨"uid-1", "Checking"⟩, none) }
  else
    { time := 50, result := .rejected "balance fetch failed" }

/-- Witness for C1: with one of two accounts failing, `getAccounts` returns
the single success and reports the single failed id. -/
theorem c1_witness :
    getAccounts "sess-1" sampleSession sampleBehavior =
        .ok (successfulAccounts sampleSession sampleBehavior) ∧
      (successfulAccounts sampleSession sampleBehavior).length =
        sampleSession.accounts.length -
          (failedAccounts sampleSession sampleBehavior).length ∧
      failedAccounts sampleSession sampleBehavior =
        sampleSession.accounts.filter
          (fun a => (settleItem sampleSession sampleBehavior a).isFailure) :=
  c1_getAccounts_partial_failure "sess-1" sampleSession sampleBehavior (by decide)

/-- C2 (amended): `getAccounts` fails with the aggregate error naming the
session if and only if there are zero successful outcomes — including the
N = 0 case, in which the source also throws. -/
theorem c2_getAccounts_aggregate_error (id : String) (session : SessionData)
    (behavior : String → ItemBehavior) :
    getAccounts id session behavior =
        .error ("All accounts failed to process for session " ++ id) ↔
      successfulAccounts session behavior = [] := by
  rw [getAccounts]
  by_cases h : (successfulAccounts session behavior).length = 0
  · rw [if_pos h]
    exact ⟨fun _ => List.length_eq_zero.mp h, fun _ => rfl⟩
  · rw [if_neg h]
    constructor
    · intro hcontra; exact Except.noConfusion hcontra
    · intro hnil
      exact absurd (by rw [hnil]; rfl) h

/-- A session with an empty account list, refuting the N = 0 side of C2. -/
def emptySession : SessionData :=
  { accounts := [], aspsp := "Sample Bank", validUntil := "2026-01-01" }

/-- Counterexample to C2 as stated: with N = 0 account ids the claim demands
that the fetch return the (empty) collection of successes, but the source
throws the aggregate error because `successfulAccounts.length === 0`. -/
theorem c2_counterexample :
    emptySession.accounts.length = 0 ∧
    successfulAccounts emptySession sampleBehavior = [] ∧
    getAccounts "sess-0" emptySession sampleBehavior =
      .error ("All accounts failed to process for session " ++ "sess-0") ∧
    getAccounts "sess-0" emptySession sampleBehavior ≠
      .ok (successfulAccounts emptySession sampleBehavior) := by
  refine ⟨rfl, rfl, rfl, ?_⟩
  intro h
  cases h

/-- Witness for C2 (amended) at a concrete all-failing input. -/
theorem c2_witness :
    getAccounts "sess-2" emptySession sampleBehavior =
        .error ("All accounts failed to process for session " ++ "sess-2") ↔
      successfulAccounts emptySession sampleBehavior = [] :=
  c2_getAccounts_aggregate_error "sess-2" emptySession sampleBehavior

/-- C4: an item whose detail-plus-balance work does not settle within the
8-second per-item timeout settles as a rejection tagged with its account id,
while every sibling position in the batch settles to the outcome of its own
account's race, independent of the slow item. -/
theorem c4_item_timeout (session : SessionData) (behavior : String → ItemBehavior)
    (accountIds : List String) (i : Nat) (accountId : String)
    (hid : accountIds[i]? = some accountId)
    (ht : ACCOUNT_TIMEOUT ≤ (behavior accountId).time) :
    (processAccountBatch session behavior accountIds)[i]? =
        some (.rejected ("Timeout processing account " ++ accountId)) ∧
    ∀ j : Nat, (processAccountBatch session behavior accountIds)[j]? =
      (accountIds[j]?).map (settleItem session behavior) := by
  have hmap : ∀ j : Nat, (processAccountBatch session behavior accountIds)[j]? =
      (accountIds[j]?).map (settleItem session behavior) := by
    intro j
    rw [processAccountBatch, List.getElem?_map]
  refine ⟨?_, hmap⟩
  rw [hmap i, hid, Option.map_some']
  rw [settleItem]
  simp only [if_neg (Nat.not_lt.mpr ht)]

/-- The C4 witness behaviour: the first account exceeds the per-item timeout,
the second settles quickly. -/
def slowBehavior : String → ItemBehavior := fun accountId =>
  if accountId = "acc-slow" then
    { time := 9000, result := .fulfilled (⟨"uid-s", "Savings"⟩, none) }
  else
    { time := 10, result := .fulfilled (⟨"uid-f", "Checking"⟩, none) }

/-- Witness for C4: the slow item of a two-item batch settles as the tagged
timeout rejection while its sibling's outcome is its own. -/
theorem c4_witness :
    (processAccountBatch sampleSession slowBehavior ["acc-slow", "acc-fast"])[0]? =
        some (.rejected ("Timeout processing account " ++ "acc-slow")) ∧
    ∀ j : Nat, (processAccountBatch sampleSession slowBehavior ["acc-slow", "acc-fast"])[j]? =
      (["acc-slow", "acc-fast"][j]?).map (settleItem sampleSession slowBehavior) :=
  c4_item_timeout sampleSession slowBehavior ["acc-slow", "acc-fast"] 0 "acc-slow"
    (by decide) (by decide)

/-- C5: `getAccounts` partitions the session's account ids into consecutive
batches of size at most `MAX_CONCURRENT = 2` whose concatenation is the
original list in order, only the last batch may be smaller, and the strictly
sequential batch loop produces the concatenation of the per-batch results in
batch order. -/
theorem c5_getAccounts_batching (xs : List String) :
    (∀ batch ∈ accountBatches xs, batch.length ≤ MAX_CONCURRENT) ∧
    (accountBatches xs).flatten = xs ∧
    (∀ batch ∈ (accountBatches xs).dropLast, batch.length = MAX_CONCURRENT) ∧
    ∀ (session : SessionData) (behavior : String → ItemBehavior),
      collectResults session behavior =
        ((accountBatches session.accounts).map
          (processAccountBatch session behavior)).flatten := by
  obtain ⟨h1, h2⟩ := accountBatches_sizes xs
  refine ⟨h1, accountBatches_flatten xs, h2, ?_⟩
  intro session behavior
  rw [collectResults, foldl_append_map, List.nil_append]

/-- C9: the flattened settled outcomes of `getAccounts` preserve the order of
the session's account list — the i-th outcome is the outcome of the i-th
account id — and consequently the failed-id report names exactly those
account ids whose own fetches failed. -/
theorem c9_order_preservation (session : SessionData) (behavior : String → ItemBehavior) :
    (∀ i : Nat, (collectResults session behavior)[i]? =
      (session.accounts[i]?).map (settleItem session behavior)) ∧
    failedAccounts session behavior =
      session.accounts.filter
        (fun a => (settleItem session behavior a).isFailure) := by
  refine ⟨?_, failedAccounts_eq_filter session behavior⟩
  intro i
  rw [collectResults_eq_map, List.getElem?_map]

/-- C10: when the provider returns an empty balances list,
`getAccountBalance` returns the absent value (`undefined` in the source,
`none` here) rather than raising an error or returning a balance record. -/
theorem c10_getAccountBalance_empty :
    getAccountBalance [] = none := rfl

/-- C7: every transactions request restricts the transaction status to booked
(`"BOOK"`); with the `latest` flag set it uses the `"default"` strategy and a
`date_from` of exactly five days before today, and with the flag unset it uses
the `"longest"` strategy with no `date_from` restriction. -/
theorem c7_getTransactions_params (today : Int) :
    (∀ latest : Bool,
      ("transaction_status", ParamValue.str "BOOK") ∈
        getTransactionsParams today latest) ∧
    getTransactionsParams today true =
      [("strategy", .str "default"), ("transaction_status", .str "BOOK"),
       ("date_from", .date (today - 5))] ∧
    getTransactionsParams today false =
      [("strategy", .str "longest"), ("transaction_status", .str "BOOK")] ∧
    ∀ v, ("date_from", v) ∉ getTransactionsParams today false := by
  refine ⟨?_, rfl, rfl, ?_⟩
  · intro latest
    cases latest <;> simp [getTransactionsParams]
  · intro v hv
    simp [getTransactionsParams] at hv

/-- Witness for C7 at the concrete epoch day 20000. -/
theorem c7_witness :
    getTransactionsParams 20000 true =
      [("strategy", .str "default"), ("transaction_status", .str "BOOK"),
       ("date_from", .date (20000 - 5))] ∧
    getTransactionsParams 20000 false =
      [("strategy", .str "longest"), ("transaction_status", .str "BOOK")] :=
  ⟨(c7_getTransactions_params 20000).2.1, (c7_getTransactions_params 20000).2.2.1⟩

/-- C8: a multi-account fetch that settles successfully before the 28 s
request-level deadline yields HTTP 200 with the data — and only then; an
adapter error before the deadline yields HTTP 400 with the normalized
structured body; a fetch still pending at the deadline yields HTTP 400 with
the normalized timeout body, never partial data. -/
theorem c8_accounts_handler (b : FetchBehavior) :
    (∀ data, getAccountsHandler b = .ok200 data ↔
      b.time < TOTAL_TIMEOUT ∧ b.result = .ok data) ∧
    (∀ e, b.time < TOTAL_TIMEOUT → b.result = .error e →
      getAccountsHandler b = .err400 (createErrorResponse e)) ∧
    (TOTAL_TIMEOUT ≤ b.time →
      getAccountsHandler b =
        .err400 (createErrorResponse (.timeoutError "Request timeout"))) := by
  refine ⟨?_, ?_, ?_⟩
  · intro data
    rw [getAccountsHandler, accountsRequestRace]
    by_cases ht : b.time < TOTAL_TIMEOUT
    · rw [if_pos ht]
      cases hr : b.result with
      | ok d =>
          simp only [hr]
          constructor
          · intro h
            cases h
            exact ⟨ht, rfl⟩
          · rintro ⟨-, h⟩
            cases h
            rfl
      | error e =>
          simp only [hr]
          constructor
          · intro h; exact AccountsHttpResponse.noConfusion h
          · rintro ⟨-, h⟩; exact Except.noConfusion h
    · rw [if_neg ht]
      constructor
      · intro h; exact AccountsHttpResponse.noConfusion h
      · rintro ⟨h, -⟩; exact absurd h ht
  · intro e ht hr
    rw [getAccountsHandler, accountsRequestRace, if_pos ht, hr]
  · intro ht
    rw [getAccountsHandler, accountsRequestRace, if_neg (Nat.not_lt.mpr ht)]

/-- Witness for C8: a fetch still pending at 30 s is answered with the
structured 400 timeout body rather than its (eventual) data. -/
theorem c8_witness :
    getAccountsHandler ⟨30000, .ok []⟩ =
      .err400 (createErrorResponse (.timeoutError "Request timeout")) :=
  (c8_accounts_handler ⟨30000, .ok []⟩).2.2 (by decide)

/-- Helper: the alphabet inverts its own characters on all 64 sextets. -/
theorem b64Index_b64Char : ∀ n < 64, b64Index (b64Char n) = some n := by decide

/-- Helper: every sextet maps into the alphabet. -/
theorem b64Char_mem : ∀ n < 64, b64Char n ∈ b64Alphabet := by decide

/-- Helper: the alphabet contains neither the separator nor the padding
character. -/
theorem b64Alphabet_no_sep : '.' ∉ b64Alphabet ∧ '=' ∉ b64Alphabet := by decide

/-- Helper: decoding inverts encoding on byte lists. -/
theorem b64_roundtrip : ∀ bs : List Nat, (∀ b ∈ bs, b < 256) →
    b64DecodeChars (b64EncodeBytes bs) = some bs
  | [], _ => rfl
  | [a], h => by
      have ha : a < 256 := h a (by simp)
      rw [b64EncodeBytes, b64DecodeChars,
        b64Index_b64Char (a / 4) (by omega),
        b64Index_b64Char (a % 4 * 16) (by omega)]
      have hval : a / 4 * 4 + a % 4 * 16 / 16 = a := by omega
      show some [a / 4 * 4 + a % 4 * 16 / 16] = some [a]
      rw [hval]
  | [a, b], h => by
      have ha : a < 256 := h a (by simp)
      have hb : b < 256 := h b (by simp)
      rw [b64EncodeBytes, b64DecodeChars,
        b64Index_b64Char (a / 4) (by omega),
        b64Index_b64Char (a % 4 * 16 + b / 16) (by omega),
        b64Index_b64Char (b % 16 * 4) (by omega)]
      have hv1 : a / 4 * 4 + (a % 4 * 16 + b / 16) / 16 = a := by omega
      have hv2 : (a % 4 * 16 + b / 16) % 16 * 16 + b % 16 * 4 / 4 = b := by omega
      show some [a / 4 * 4 + (a % 4 * 16 + b / 16) / 16,
        (a % 4 * 16 + b / 16) % 16 * 16 + b % 16 * 4 / 4] = some [a, b]
      rw [hv1, hv2]
  | a :: b :: c :: rest, h => by
      have ha : a < 256 := h a (by simp)
      have hb : b < 256 := h b (by simp)
      have hc : c < 256 := h c (by simp)
      have ih := b64_roundtrip rest (fun x hx => h x (by simp [hx]))
      rw [b64EncodeBytes, b64DecodeChars,
        b64Index_b64Char (a / 4) (by omega),
        b64Index_b64Char (a % 4 * 16 + b / 16) (by omega),
        b64Index_b64Char (b % 16 * 4 + c / 64) (by omega),
        b64Index_b64Char (c % 64) (by omega), ih]
      have hv1 : a / 4 * 4 + (a % 4 * 16 + b / 16) / 16 = a := by omega
      have hv2 : (a % 4 * 16 + b / 16) % 16 * 16 + (b % 16 * 4 + c / 64) / 4 = b := by omega
      have hv3 : (b % 16 * 4 + c / 64) % 4 * 64 + c % 64 = c := by omega
      show some ((a / 4 * 4 + (a % 4 * 16 + b / 16) / 16) ::
        ((a % 4 * 16 + b / 16) % 16 * 16 + (b % 16 * 4 + c / 64) / 4) ::
        ((b % 16 * 4 + c / 64) % 4 * 64 + c % 64) :: rest) = some (a :: b :: c :: rest)
      rw [hv1, hv2, hv3]

/-- Helper: every character emitted by the encoder is an alphabet character. -/
theorem b64EncodeBytes_mem : ∀ bs : List Nat, (∀ b ∈ bs, b < 256) →
    ∀ c ∈ b64EncodeBytes bs, c ∈ b64Alphabet
  | [], _ => by simp [b64EncodeBytes]
  | [a], h => by
      intro c hc
      have ha : a < 256 := h a (by simp)
      rw [b64EncodeBytes] at hc
      simp only [List.mem_cons, List.not_mem_nil, or_false] at hc
      rcases hc with rfl | rfl
      · exact b64Char_mem _ (by omega)
      · exact b64Char_mem _ (by omega)
  | [a, b], h => by
      intro c hc
      have ha : a < 256 := h a (by simp)
      have hb : b < 256 := h b (by simp)
      rw [b64EncodeBytes] at hc
      simp only [List.mem_cons, List.not_mem_nil, or_false] at hc
      rcases hc with rfl | rfl | rfl
      · exact b64Char_mem _ (by omega)
      · exact b64Char_mem _ (by omega)
      · exact b64Char_mem _ (by omega)
  | a :: b :: c :: rest, h => by
      intro x hx
      have ha : a < 256 := h a (by simp)
      have hb : b < 256 := h b (by simp)
      have hc : c < 256 := h c (by simp)
      have ih := b64EncodeBytes_mem rest (fun y hy => h y (by simp [hy]))
      rw [b64EncodeBytes] at hx
      simp only [List.mem_cons] at hx
      rcases hx with rfl | rfl | rfl | rfl | hx
      · exact b64Char_mem _ (by omega)
      · exact b64Char_mem _ (by omega)
      · exact b64Char_mem _ (by omega)
      · exact b64Char_mem _ (by omega)
      · exact ih x hx

/-- Helper: `toList` distributes over string append. -/
theorem string_toList_append (a b : String) : (a ++ b).toList = a.toList ++ b.toList := by
  simp [String.toList, String.data_append]

/-- Helper: decoding inverts encoding on strings of code points below 256. -/
theorem base64urlDecode_encode (s : String) (h : ∀ c ∈ s.toList, c.toNat < 256) :
    base64urlDecode (base64urlEncode s) = some s := by
  have hb : ∀ b ∈ stringToBytes s, b < 256 := by
    intro b hb
    rcases List.mem_map.mp hb with ⟨c, hc, rfl⟩
    exact h c hc
  have htl : (String.mk (b64EncodeBytes (stringToBytes s))).toList =
      b64EncodeBytes (stringToBytes s) := rfl
  rw [base64urlEncode, base64urlDecode, htl, b64_roundtrip _ hb, Option.map_some']
  congr 1
  rw [bytesToString, stringToBytes, List.map_map]
  have hmap : s.toList.map (Char.ofNat ∘ Char.toNat) = s.toList.map id :=
    List.map_congr_left (fun c _ => Char.ofNat_toNat c)
  rw [hmap, List.map_id]
  cases s
  rfl

/-- Helper: decimal digit characters decode back to their values. -/
theorem digitChar_toNat : ∀ d < 10, (digitChar d).toNat = 48 + d := by decide

/-- Helper: the decimal digits of a natural are below ten. -/
theorem natDigitsRev_lt : ∀ n : Nat, ∀ d ∈ natDigitsRev n, d < 10
  | 0 => by simp [natDigitsRev]
  | n + 1 => by
      intro d hd
      rw [natDigitsRev] at hd
      rcases List.mem_cons.mp hd with rfl | hd
      · omega
      · exact natDigitsRev_lt ((n + 1) / 10) d hd
decreasing_by exact Nat.div_lt_self (Nat.succ_pos n) (by norm_num)

/-- Helper: folding the most-significant-first digits reconstructs the
natural. -/
theorem foldl_natDigitsRev : ∀ (n acc : Nat),
    ((natDigitsRev n).reverse).foldl (fun a d => a * 10 + d) acc =
      acc * 10 ^ (natDigitsRev n).length + n
  | 0, acc => by simp [natDigitsRev]
  | n + 1, acc => by
      rw [natDigitsRev, List.reverse_cons, List.foldl_append,
        foldl_natDigitsRev ((n + 1) / 10) acc]
      simp only [List.foldl_cons, List.foldl_nil, List.length_cons]
      have hdm : (n + 1) / 10 * 10 + (n + 1) % 10 = n + 1 := by omega
      calc (acc * 10 ^ (natDigitsRev ((n + 1) / 10)).length + (n + 1) / 10) * 10 +
            (n + 1) % 10
          = acc * (10 ^ (natDigitsRev ((n + 1) / 10)).length * 10) +
            ((n + 1) / 10 * 10 + (n + 1) % 10) := by ring
        _ = acc * 10 ^ ((natDigitsRev ((n + 1) / 10)).length + 1) + (n + 1) := by
            rw [pow_succ, hdm]
decreasing_by exact Nat.div_lt_self (Nat.succ_pos n) (by norm_num)

/-- Helper: the decimal character representation of any natural is a
non-empty digit string folding back to the natural. -/
theorem natChars_spec (n : Nat) : ∃ ds : List Nat,
    natChars n = ds.map digitChar ∧ ds ≠ [] ∧ (∀ d ∈ ds, d < 10) ∧
      ds.foldl (fun a d => a * 10 + d) 0 = n := by
  by_cases h0 : n = 0
  · subst h0
    exact ⟨[0], by decide, by decide, by decide, rfl⟩
  · refine ⟨(natDigitsRev n).reverse, ?_, ?_, ?_, ?_⟩
    · rw [natChars, if_neg h0]
    · cases hn : n with
      | zero => exact absurd hn h0
      | succ m =>
          rw [natDigitsRev, List.reverse_cons]
          simp
    · intro d hd
      exact natDigitsRev_lt n d (List.mem_reverse.mp hd)
    · have := foldl_natDigitsRev n 0
      simpa using this

/-- Helper: the greedy digit reader consumes exactly a digit-character block
when the remainder starts with a non-digit. -/
theorem readDigits_append : ∀ (ds : List Nat) (rest : List Char),
    (∀ d ∈ ds, d < 10) → noLeadingDigit rest = true →
    readDigits (ds.map digitChar ++ rest) = (ds, rest)
  | [], rest, _, hrest => by
      cases rest with
      | nil => rfl
      | cons c cs =>
          rw [List.map_nil, List.nil_append, readDigits]
          rw [noLeadingDigit] at hrest
          rw [if_neg (by simp at hrest; omega)]
  | d :: ds, rest, h, hrest => by
      have hd : d < 10 := h d (by simp)
      have hcond : 48 ≤ (digitChar d).toNat ∧ (digitChar d).toNat ≤ 57 := by
        rw [digitChar_toNat d hd]; omega
      rw [List.map_cons, List.cons_append, readDigits, if_pos hcond,
        readDigits_append ds rest (fun x hx => h x (by simp [hx])) hrest]
      have hsub : (digitChar d).toNat - 48 = d := by
        rw [digitChar_toNat d hd]; omega
      rw [hsub]

/-- Helper: `readNat` parses the decimal representation of any natural when
followed by a non-digit. -/
theorem readNat_natChars (n : Nat) (rest : List Char)
    (hrest : noLeadingDigit rest = true) :
    readNat (natChars n ++ rest) = some (n, rest) := by
  obtain ⟨ds, hmap, hne, hlt, hval⟩ := natChars_spec n
  rw [hmap, readNat, readDigits_append ds rest hlt hrest]
  cases ds with
  | nil => exact absurd rfl hne
  | cons d ds' =>
      show some ((d :: ds').foldl (fun a d => a * 10 + d) 0, rest) = some (n, rest)
      rw [hval]

/-- Helper: `expectChars` consumes exactly the expected text. -/
theorem expectChars_append : ∀ (p rest : List Char), expectChars p (p ++ rest) = some rest
  | [], rest => rfl
  | c :: ps, rest => by
      rw [List.cons_append, expectChars, if_pos rfl, expectChars_append ps rest]

/-- Helper: `takeUntilQuote` consumes exactly up to the next quote. -/
theorem takeUntilQuote_append : ∀ (s rest : List Char), '"' ∉ s →
    takeUntilQuote (s ++ '"' :: rest) = some (s, rest)
  | [], rest, _ => by
      rw [List.nil_append, takeUntilQuote, if_pos rfl]
  | c :: s, rest, h => by
      have hc : ¬(c = '"') := by
        intro hceq
        subst hceq
        exact h (List.mem_cons_self _ _)
      rw [List.cons_append, takeUntilQuote, if_neg hc,
        takeUntilQuote_append s rest (fun hm => h (List.mem_cons_of_mem c hm))]

/-- Helper: parsing the serialized body recovers its fields. -/
theorem parseJWTBody_jwtBodyJson (iat exp : Nat) :
    parseJWTBody (jwtBodyJson iat exp) =
      some ⟨"enablebanking.com", "api.enablebanking.com", iat, exp⟩ := by
  have hlit :
      ("\x7b\"iss\":\"enablebanking.com\",\"aud\":\"api.enablebanking.com\",\"iat\":" :
          String).toList =
        "\x7b\"iss\":\"".toList ++
          ("enablebanking.com".toList ++ ('"' ::
            (",\"aud\":\"".toList ++
              ("api.enablebanking.com".toList ++ ('"' :: ",\"iat\":".toList))))) := by
    decide
  have hbody : (jwtBodyJson iat exp).toList =
      "\x7b\"iss\":\"".toList ++
        ("enablebanking.com".toList ++ ('"' ::
          (",\"aud\":\"".toList ++
            ("api.enablebanking.com".toList ++ ('"' ::
              (",\"iat\":".toList ++
                (natChars iat ++
                  (",\"exp\":".toList ++
                    (natChars exp ++ ['\x7d']))))))))) := by
    rw [jwtBodyJson, string_toList_append, string_toList_append,
      string_toList_append, string_toList_append, hlit]
    have h1 : (natToStr iat).toList = natChars iat := rfl
    have h2 : (natToStr exp).toList = natChars exp := rfl
    have h3 : ("\x7d" : String).toList = ['\x7d'] := by decide
    rw [h1, h2, h3]
    simp only [List.append_assoc, List.cons_append]
  rw [parseJWTBody, hbody, expectChars_append]
  simp only [Option.some_bind]
  rw [takeUntilQuote_append _ _ (by decide)]
  simp only [Option.some_bind]
  rw [expectChars_append]
  simp only [Option.some_bind]
  rw [takeUntilQuote_append _ _ (by decide)]
  simp only [Option.some_bind]
  rw [expectChars_append]
  simp only [Option.some_bind]
  rw [readNat_natChars iat (",\"exp\":".toList ++ (natChars exp ++ ['\x7d'])) rfl]
  simp only [Option.some_bind]
  rw [expectChars_append]
  simp only [Option.some_bind]
  rw [readNat_natChars exp ['\x7d'] rfl]
  simp only [Option.some_bind]
  rfl

/-- Helper: decimal representations are ASCII. -/
theorem natChars_bytes (n : Nat) : ∀ c ∈ natChars n, c.toNat < 256 := by
  obtain ⟨ds, hmap, _, hlt, _⟩ := natChars_spec n
  rw [hmap]
  intro c hc
  rcases List.mem_map.mp hc with ⟨d, hd, rfl⟩
  have hd10 := hlt d hd
  rw [digitChar_toNat d hd10]
  omega

/-- Helper: the serialized body is ASCII. -/
theorem jwtBodyJson_bytes (iat exp : Nat) :
    ∀ c ∈ (jwtBodyJson iat exp).toList, c.toNat < 256 := by
  intro c hc
  rw [jwtBodyJson, string_toList_append, string_toList_append,
    string_toList_append, string_toList_append] at hc
  have h1 : (natToStr iat).toList = natChars iat := rfl
  have h2 : (natToStr exp).toList = natChars exp := rfl
  rw [h1, h2] at hc
  have hA : ∀ c ∈
      ("\x7b\"iss\":\"enablebanking.com\",\"aud\":\"api.enablebanking.com\",\"iat\":" :
        String).toList, c.toNat < 256 := by decide
  have hB : ∀ c ∈ (",\"exp\":" : String).toList, c.toNat < 256 := by decide
  have hC : ∀ c ∈ ("\x7d" : String).toList, c.toNat < 256 := by decide
  simp only [List.mem_append] at hc
  rcases hc with ((((hc | hc) | hc) | hc) | hc)
  · exact hA c hc
  · exact natChars_bytes iat c hc
  · exact hB c hc
  · exact natChars_bytes exp c hc
  · exact hC c hc

/-- Helper: the serialized header is ASCII whenever the application id is. -/
theorem jwtHeaderJson_bytes (kid : String) (h : ∀ c ∈ kid.toList, c.toNat < 128) :
    ∀ c ∈ (jwtHeaderJson kid).toList, c.toNat < 256 := by
  intro c hc
  rw [jwtHeaderJson, string_toList_append, string_toList_append] at hc
  have hA : ∀ c ∈ ("\x7b\"typ\":\"JWT\",\"alg\":\"RS256\",\"kid\":\"" : String).toList,
      c.toNat < 256 := by decide
  have hB : ∀ c ∈ ("\"\x7d" : String).toList, c.toNat < 256 := by decide
  simp only [List.mem_append] at hc
  rcases hc with (hc | hc) | hc
  · exact hA c hc
  · exact lt_trans (h c hc) (by norm_num)
  · exact hB c hc

/-- Helper: every character of an encoded segment is an alphabet character. -/
theorem encodeData_mem (s : String) (h : ∀ c ∈ s.toList, c.toNat < 256) :
    ∀ c ∈ (encodeData s).toList, c ∈ b64Alphabet := by
  intro c hc
  have hb : ∀ b ∈ stringToBytes s, b < 256 := by
    intro b hb
    rcases List.mem_map.mp hb with ⟨ch, hch, rfl⟩
    exact h ch hch
  exact b64EncodeBytes_mem (stringToBytes s) hb c hc

/-- C6: the generated signed-token assertion is three dot-joined segments of
URL-safe unpadded base64 characters; decoding the header segment recovers the
header JSON, decoding and parsing the body segment recovers issuer
`enablebanking.com`, audience `api.enablebanking.com`, and an expiry equal to
the issued-at timestamp plus the configured TTL of 20 hours (72000 seconds),
which is strictly below the provider's 24-hour (86400-second) maximum. -/
theorem c6_jwt_assertion (applicationId : String) (timestamp : Nat)
    (signature : List Nat)
    (happ : ∀ c ∈ applicationId.toList, c.toNat < 128)
    (hsig : ∀ b ∈ signature, b < 256) :
    generateJWT applicationId timestamp signature =
      getJWTHeader applicationId ++ "." ++
        getJWTBody timestamp (expiresInHours * 60 * 60) ++ "." ++
        String.mk (b64EncodeBytes signature) ∧
    (∀ c ∈ (getJWTHeader applicationId).toList, c ∈ b64Alphabet) ∧
    (∀ c ∈ (getJWTBody timestamp (expiresInHours * 60 * 60)).toList,
      c ∈ b64Alphabet) ∧
    (∀ c ∈ (String.mk (b64EncodeBytes signature)).toList, c ∈ b64Alphabet) ∧
    '.' ∉ b64Alphabet ∧ '=' ∉ b64Alphabet ∧
    base64urlDecode (getJWTHeader applicationId) =
      some (jwtHeaderJson applicationId) ∧
    (base64urlDecode (getJWTBody timestamp (expiresInHours * 60 * 60))).bind
        parseJWTBody =
      some ⟨"enablebanking.com", "api.enablebanking.com", timestamp,
        timestamp + expiresInHours * 60 * 60⟩ ∧
    expiresInHours * 60 * 60 = 72000 ∧ expiresInHours * 60 * 60 < 86400 := by
  refine ⟨rfl, ?_, ?_, ?_, b64Alphabet_no_sep.1, b64Alphabet_no_sep.2, ?_, ?_,
    by decide, by decide⟩
  · exact encodeData_mem _ (jwtHeaderJson_bytes applicationId happ)
  · exact encodeData_mem _ (jwtBodyJson_bytes _ _)
  · intro c hc
    exact b64EncodeBytes_mem signature hsig c hc
  · exact base64urlDecode_encode _ (jwtHeaderJson_bytes applicationId happ)
  · rw [getJWTBody, encodeData,
      base64urlDecode_encode _ (jwtBodyJson_bytes _ _), Option.some_bind,
      parseJWTBody_jwtBodyJson]

/-- Witness for C6 at a concrete application id, timestamp and signature. -/
theorem c6_witness :
    (∀ c ∈ ("app-123" : String).toList, c.toNat < 128) ∧
    (∀ b ∈ [1, 2, 3], b < 256) ∧
    (generateJWT "app-123" 1700000000 [1, 2, 3] =
      getJWTHeader "app-123" ++ "." ++
        getJWTBody 1700000000 (expiresInHours * 60 * 60) ++ "." ++
        String.mk (b64EncodeBytes [1, 2, 3]) ∧
    (∀ c ∈ (getJWTHeader "app-123").toList, c ∈ b64Alphabet) ∧
    (∀ c ∈ (getJWTBody 1700000000 (expiresInHours * 60 * 60)).toList,
      c ∈ b64Alphabet) ∧
    (∀ c ∈ (String.mk (b64EncodeBytes [1, 2, 3])).toList, c ∈ b64Alphabet) ∧
    '.' ∉ b64Alphabet ∧ '=' ∉ b64Alphabet ∧
    base64urlDecode (getJWTHeader "app-123") = some (jwtHeaderJson "app-123") ∧
    (base64urlDecode (getJWTBody 1700000000 (expiresInHours * 60 * 60))).bind
        parseJWTBody =
      some ⟨"enablebanking.com", "api.enablebanking.com", 1700000000,
        1700000000 + expiresInHours * 60 * 60⟩ ∧
    expiresInHours * 60 * 60 = 72000 ∧ expiresInHours * 60 * 60 < 86400) :=
  ⟨by decide, by decide,
    c6_jwt_assertion "app-123" 1700000000 [1, 2, 3] (by decide) (by decide)⟩

end Midday
